import Mathlib

set_option maxHeartbeats 1000000
set_option maxRecDepth 4000

/-!
Shallow embedding of the TripWire eBPF exec tracer
(`internal/watcher/ebpf/process.bpf.c` and `internal/watcher/ebpf/process.h`).

User memory is modelled abstractly: the fault-safe BPF helpers either see a
value (`some _`) or fault (`none`).  Byte buffers are total maps
`Nat → Nat` from index to byte value; `writeRange` is the primitive write.
The model of `bpf_probe_read_user_str` follows the kernel helper's
documented behaviour: on success it writes the string content plus the
terminating NUL (at most `size` bytes, truncating to `size - 1` content
bytes) and returns the number of bytes written including the NUL; on fault
it zeroes all `size` destination bytes and returns a negative errno.  The
destination is NOT padded past the written string.  `bpf_probe_read_user`
of a pointer slot likewise yields 0 on fault (the helper zeroes the
destination on error).
-/

/-- Model of user-space memory as read through the fault-safe BPF helpers:
`ptrAt a` is the 8-byte pointer value stored at user address `a` (`none`
means the read faults); `strAt a` is the NUL-terminated string starting at
user address `a`, given as its content bytes without the final NUL (`none`
means the read faults). -/
structure UserMem where
  ptrAt : Nat → Option Nat
  strAt : Nat → Option (List Nat)

/-- Overwrite `bs.length` bytes of `buf` starting at index `p`. -/
def writeRange (buf : Nat → Nat) (p : Nat) (bs : List Nat) : Nat → Nat :=
  fun j => if p ≤ j ∧ j < p + bs.length then bs.getD (j - p) 0 else buf j

/-- Model of `bpf_probe_read_user_str(&buf[pos], size, addr)`: returns the
updated buffer and the helper's return value (bytes written including the
NUL on success, negative on fault; the whole destination window is zeroed
on fault). -/
def probe_read_user_str (m : UserMem) (buf : Nat → Nat) (pos size : Nat)
    (addr : Nat) : (Nat → Nat) × Int :=
  match m.strAt addr with
  | none => (writeRange buf pos (List.replicate size 0), -14)
  | some s =>
      if size = 0 then (buf, 0)
      else
        let k := min s.length (size - 1)
        (writeRange buf pos (s.take k ++ [0]), (k : Int) + 1)

/-- `MAX_ARGS` from process.bpf.c. -/
def MAX_ARGS : Nat := 16

/-- Cursor update after the string read in the fill_argv loop:
`if (n > 0) pos += n - 1` (the return value includes the NUL, so the
cursor advances past the content bytes only; on error it stays put). -/
def argvAdvance (pos : Nat) (n : Int) : Nat :=
  if 0 < n then pos + (n.toNat - 1) else pos

/-- Loop of `fill_argv` from process.bpf.c, with `fuel` the number of
remaining iterations (the C loop is
`for (i = 0; i < MAX_ARGS && pos < len - 1; i++)`, so `fuel = MAX_ARGS - i`).
Each iteration reads the i-th argv pointer (0 on fault, since the helper
zeroes its destination on error; a 0 pointer breaks the loop), writes a
space separator when `i > 0`, breaks when no buffer space remains
(`remaining = len - pos - 1 <= 0`), and otherwise reads the argument
string into the remaining space, advancing `pos` only when the read
succeeds.  The C locals `remaining` and `n` are inlined; the two arms of
`if (i > 0 && pos < len - 1)` (separator written / not written) are
spelled out. -/
def fill_argvAux (m : UserMem) (argv_ptr len : Nat) :
    Nat → Nat → Nat → (Nat → Nat) → Nat × (Nat → Nat)
  | 0, _, pos, buf => (pos, buf)
  | fuel + 1, i, pos, buf =>
    if pos + 1 < len then
      if (m.ptrAt (argv_ptr + 8 * i)).getD 0 = 0 then (pos, buf)
      else if 0 < i ∧ pos + 1 < len then
        if len - (pos + 1) - 1 = 0 then (pos + 1, writeRange buf pos [32])
        else
          fill_argvAux m argv_ptr len fuel (i + 1)
            (argvAdvance (pos + 1)
              (probe_read_user_str m (writeRange buf pos [32]) (pos + 1)
                (len - (pos + 1) - 1) ((m.ptrAt (argv_ptr + 8 * i)).getD 0)).2)
            (probe_read_user_str m (writeRange buf pos [32]) (pos + 1)
              (len - (pos + 1) - 1) ((m.ptrAt (argv_ptr + 8 * i)).getD 0)).1
      else
        if len - pos - 1 = 0 then (pos, buf)
        else
          fill_argvAux m argv_ptr len fuel (i + 1)
            (argvAdvance pos
              (probe_read_user_str m buf pos (len - pos - 1)
                ((m.ptrAt (argv_ptr + 8 * i)).getD 0)).2)
            (probe_read_user_str m buf pos (len - pos - 1)
              ((m.ptrAt (argv_ptr + 8 * i)).getD 0)).1
    else (pos, buf)

/-- `fill_argv(buf, len, argv_ptr)` from process.bpf.c: run the bounded
join loop, then guarantee NUL termination with `if (pos < len) buf[pos] = 0`. -/
def fill_argv (m : UserMem) (buf : Nat → Nat) (len : Nat) (argv_ptr : Nat) :
    Nat → Nat :=
  let r := fill_argvAux m argv_ptr len MAX_ARGS 0 0 buf
  if r.1 < len then writeRange r.2 r.1 [0] else r.2

/-- `TRIPWIRE_COMM_LEN` from process.h. -/
def TRIPWIRE_COMM_LEN : Nat := 16

/-- `TRIPWIRE_PATH_LEN` from process.h. -/
def TRIPWIRE_PATH_LEN : Nat := 256

/-- `TRIPWIRE_ARGV_LEN` from process.h. -/
def TRIPWIRE_ARGV_LEN : Nat := 256

/-- Kernel-side task context read by the BPF helpers:
`pid_tgid = tgid<<32 | tid` (`bpf_get_current_pid_tgid`),
`uid_gid = gid<<32 | uid` (`bpf_get_current_uid_gid`), the task's short
name content bytes, and the CO-RE-read `real_parent->tgid` (already 0 when
the relocated read fails). -/
structure TaskCtx where
  pid_tgid : Nat
  uid_gid : Nat
  comm : List Nat
  real_parent_tgid : Nat

/-- Model of `bpf_get_current_comm(buf, size)`: copies the task name
truncated to `size - 1` bytes and zero-pads the rest of the destination
(the helper fully initialises its destination). -/
def get_current_comm (c : List Nat) (size : Nat) : List Nat :=
  c.take (size - 1) ++ List.replicate (size - min c.length (size - 1)) 0

/-- `struct exec_event` from process.h: four u32 fields and three byte
arrays (`comm[16]`, `filename[256]`, `argv[256]`), the arrays modelled as
index-to-byte maps so that a freshly reserved (uninitialised) slot can
carry arbitrary bytes. -/
structure ExecEvent where
  pid : Nat
  ppid : Nat
  uid : Nat
  gid : Nat
  comm : Nat → Nat
  filename : Nat → Nat
  argv : Nat → Nat

/-- `fill_event(e, filename_ptr, argv_ptr)` from process.bpf.c: populate a
reserved record from the task context and user memory.  The u32 stores
keep the C casts (`% 2^32`). -/
def fill_event (m : UserMem) (t : TaskCtx) (e : ExecEvent)
    (filename_ptr argv_ptr : Nat) : ExecEvent :=
  { pid := (t.pid_tgid >>> 32) % 2 ^ 32
    uid := (t.uid_gid % 2 ^ 32) % 2 ^ 32
    gid := (t.uid_gid >>> 32) % 2 ^ 32
    ppid := t.real_parent_tgid % 2 ^ 32
    comm := writeRange e.comm 0 (get_current_comm t.comm TRIPWIRE_COMM_LEN)
    filename := (probe_read_user_str m e.filename 0 TRIPWIRE_PATH_LEN filename_ptr).1
    argv := fill_argv m e.argv TRIPWIRE_ARGV_LEN argv_ptr }

/-- Tracepoint context `trace_event_raw_sys_enter`: `args i` models
`ctx->args[i]`. -/
structure SysEnterCtx where
  args : Nat → Nat

/-- `trace_execve` from process.bpf.c.  `slot` models the result of
`bpf_ringbuf_reserve` (`none` = reservation failed, `some e` = reserved
slot with its pre-existing bytes).  The result is the handler's return
value together with the submitted record (`none` = nothing submitted). -/
def trace_execve (m : UserMem) (t : TaskCtx) (slot : Option ExecEvent)
    (ctx : SysEnterCtx) : Int × Option ExecEvent :=
  match slot with
  | none => (0, none)
  | some e => (0, some (fill_event m t e (ctx.args 0) (ctx.args 1)))

/-- `trace_execveat` from process.bpf.c: same shape as `trace_execve` but
the path is `ctx->args[1]` and argv is `ctx->args[2]` (`args[0]` is the
dirfd, ignored). -/
def trace_execveat (m : UserMem) (t : TaskCtx) (slot : Option ExecEvent)
    (ctx : SysEnterCtx) : Int × Option ExecEvent :=
  match slot with
  | none => (0, none)
  | some e => (0, some (fill_event m t e (ctx.args 1) (ctx.args 2)))

/-- Little-endian byte encoding of a `__u32`. -/
def u32le (x : Nat) : List Nat :=
  [x % 256, x / 256 % 256, x / 65536 % 256, x / 16777216 % 256]

/-- Byte layout of `struct exec_event` per the C layout rules: four 4-byte
aligned u32s followed by three char arrays; every offset is a multiple of
the required alignment, so the compiler inserts no padding. -/
def exec_event_bytes (e : ExecEvent) : List Nat :=
  u32le e.pid ++ u32le e.ppid ++ u32le e.uid ++ u32le e.gid
    ++ (List.range TRIPWIRE_COMM_LEN).map e.comm
    ++ (List.range TRIPWIRE_PATH_LEN).map e.filename
    ++ (List.range TRIPWIRE_ARGV_LEN).map e.argv

/-! Helper lemmas about the byte-buffer primitive and the read helper. -/

theorem writeRange_getD (buf : Nat → Nat) (p : Nat) (bs : List Nat) (j : Nat)
    (h1 : p ≤ j) (h2 : j < p + bs.length) :
    writeRange buf p bs j = bs.getD (j - p) 0 := by
  simp [writeRange, h1, h2]

theorem writeRange_out (buf : Nat → Nat) (p : Nat) (bs : List Nat) (j : Nat)
    (h : j < p ∨ p + bs.length ≤ j) :
    writeRange buf p bs j = buf j := by
  have : ¬ (p ≤ j ∧ j < p + bs.length) := by omega
  simp [writeRange, this]

theorem writeRange_append (buf : Nat → Nat) (p : Nat) (A B : List Nat) :
    writeRange (writeRange buf p A) (p + A.length) B = writeRange buf p (A ++ B) := by
  funext j
  simp only [writeRange, List.length_append]
  by_cases h1 : p + A.length ≤ j ∧ j < p + A.length + B.length
  · rw [if_pos h1, if_pos (by omega : p ≤ j ∧ j < p + (A.length + B.length))]
    rw [List.getD_append_right _ _ _ _ (by omega : A.length ≤ j - p)]
    congr 1
    omega
  · rw [if_neg h1]
    by_cases h2 : p ≤ j ∧ j < p + A.length
    · rw [if_pos h2, if_pos (by omega : p ≤ j ∧ j < p + (A.length + B.length))]
      rw [List.getD_append _ _ _ _ (by omega : j - p < A.length)]
    · rw [if_neg h2, if_neg (by omega : ¬ (p ≤ j ∧ j < p + (A.length + B.length)))]

theorem writeRange_overwrite (buf : Nat → Nat) (p : Nat) (A B : List Nat) (x : Nat)
    (hB : B ≠ []) :
    writeRange (writeRange buf p (A ++ [x])) (p + A.length) B
      = writeRange buf p (A ++ B) := by
  have hB1 : 1 ≤ B.length := List.length_pos.mpr hB
  funext j
  simp only [writeRange, List.length_append, List.length_singleton]
  by_cases h1 : p + A.length ≤ j ∧ j < p + A.length + B.length
  · rw [if_pos h1, if_pos (by omega : p ≤ j ∧ j < p + (A.length + B.length))]
    rw [List.getD_append_right _ _ _ _ (by omega : A.length ≤ j - p)]
    congr 1
    omega
  · rw [if_neg h1]
    by_cases h2 : p ≤ j ∧ j < p + A.length
    · rw [if_pos (by omega : p ≤ j ∧ j < p + (A.length + 1)),
          if_pos (by omega : p ≤ j ∧ j < p + (A.length + B.length))]
      rw [List.getD_append _ _ _ _ (by omega : j - p < A.length),
          List.getD_append _ _ _ _ (by omega : j - p < A.length)]
    · rw [if_neg (by omega : ¬ (p ≤ j ∧ j < p + (A.length + 1))),
          if_neg (by omega : ¬ (p ≤ j ∧ j < p + (A.length + B.length)))]

theorem probe_read_user_str_fault (m : UserMem) (buf : Nat → Nat)
    (pos size addr : Nat) (h : m.strAt addr = none) :
    probe_read_user_str m buf pos size addr
      = (writeRange buf pos (List.replicate size 0), -14) := by
  simp [probe_read_user_str, h]

theorem probe_read_user_str_fits (m : UserMem) (buf : Nat → Nat)
    (pos size addr : Nat) (s : List Nat) (h : m.strAt addr = some s)
    (hs : s.length + 1 ≤ size) :
    probe_read_user_str m buf pos size addr
      = (writeRange buf pos (s ++ [0]), (s.length : Int) + 1) := by
  have hsz : ¬ size = 0 := by omega
  have hmin : min s.length (size - 1) = s.length := by omega
  simp [probe_read_user_str, h, hsz, hmin]

theorem probe_read_user_str_ret_le (m : UserMem) (buf : Nat → Nat)
    (pos size addr : Nat)
    (h : 0 < (probe_read_user_str m buf pos size addr).2) :
    (probe_read_user_str m buf pos size addr).2.toNat ≤ size := by
  rcases hm : m.strAt addr with _ | s
  · rw [probe_read_user_str_fault m buf pos size addr hm] at h
    simp at h
  · by_cases hsz : size = 0
    · simp [probe_read_user_str, hm, hsz] at h
    · have hval : (probe_read_user_str m buf pos size addr).2
          = ((min s.length (size - 1) : Nat) : Int) + 1 := by
        simp [probe_read_user_str, hm, hsz, Nat.cast_min]
      rw [hval]
      have hmin : min s.length (size - 1) ≤ size - 1 := min_le_right _ _
      omega

theorem fill_argvAux_succ (m : UserMem) (p len fuel i pos : Nat) (buf : Nat → Nat) :
    fill_argvAux m p len (fuel + 1) i pos buf =
      if pos + 1 < len then
        if (m.ptrAt (p + 8 * i)).getD 0 = 0 then (pos, buf)
        else if 0 < i ∧ pos + 1 < len then
          if len - (pos + 1) - 1 = 0 then (pos + 1, writeRange buf pos [32])
          else
            fill_argvAux m p len fuel (i + 1)
              (argvAdvance (pos + 1)
                (probe_read_user_str m (writeRange buf pos [32]) (pos + 1)
                  (len - (pos + 1) - 1) ((m.ptrAt (p + 8 * i)).getD 0)).2)
              (probe_read_user_str m (writeRange buf pos [32]) (pos + 1)
                (len - (pos + 1) - 1) ((m.ptrAt (p + 8 * i)).getD 0)).1
        else
          if len - pos - 1 = 0 then (pos, buf)
          else
            fill_argvAux m p len fuel (i + 1)
              (argvAdvance pos
                (probe_read_user_str m buf pos (len - pos - 1)
                  ((m.ptrAt (p + 8 * i)).getD 0)).2)
              (probe_read_user_str m buf pos (len - pos - 1)
                ((m.ptrAt (p + 8 * i)).getD 0)).1
      else (pos, buf) := rfl

theorem fill_argvAux_fst_le (m : UserMem) (p len : Nat) :
    ∀ (fuel i pos : Nat) (buf : Nat → Nat), pos + 1 ≤ len →
      (fill_argvAux m p len fuel i pos buf).1 + 1 ≤ len := by
  intro fuel
  induction fuel with
  | zero => intro i pos buf h; exact h
  | succ n ih =>
    intro i pos buf h
    rw [fill_argvAux_succ]
    by_cases h1 : pos + 1 < len
    · rw [if_pos h1]
      by_cases h2 : (m.ptrAt (p + 8 * i)).getD 0 = 0
      · rw [if_pos h2]; exact h
      · rw [if_neg h2]
        by_cases h3 : 0 < i ∧ pos + 1 < len
        · rw [if_pos h3]
          by_cases h4 : len - (pos + 1) - 1 = 0
          · rw [if_pos h4]; omega
          · rw [if_neg h4]
            apply ih
            by_cases h5 : 0 < (probe_read_user_str m (writeRange buf pos [32]) (pos + 1)
                (len - (pos + 1) - 1) ((m.ptrAt (p + 8 * i)).getD 0)).2
            · have := probe_read_user_str_ret_le m (writeRange buf pos [32]) (pos + 1)
                (len - (pos + 1) - 1) ((m.ptrAt (p + 8 * i)).getD 0) h5
              simp only [argvAdvance, if_pos h5]
              omega
            · simp only [argvAdvance, if_neg h5]
              omega
        · rw [if_neg h3]
          by_cases h4 : len - pos - 1 = 0
          · rw [if_pos h4]; exact h
          · rw [if_neg h4]
            apply ih
            by_cases h5 : 0 < (probe_read_user_str m buf pos (len - pos - 1)
                ((m.ptrAt (p + 8 * i)).getD 0)).2
            · have := probe_read_user_str_ret_le m buf pos (len - pos - 1)
                ((m.ptrAt (p + 8 * i)).getD 0) h5
              simp only [argvAdvance, if_pos h5]
              omega
            · simp only [argvAdvance, if_neg h5]
              omega
    · rw [if_neg h1]; exact h

/-! Claim theorems. -/

/-- C1: every record produced by the event filler carries a NUL byte in its
filename field at some index in [0, 256).  This covers a fault of the
user-pointer read: the helper then zeroes the whole 256-byte field, so the
record still has a NUL-terminated (empty) filename. -/
theorem fill_event_filename_nul (m : UserMem) (t : TaskCtx) (e : ExecEvent)
    (fp ap : Nat) :
    ∃ j, j < 256 ∧ (fill_event m t e fp ap).filename j = 0 := by
  have hfe : (fill_event m t e fp ap).filename
      = (probe_read_user_str m e.filename 0 TRIPWIRE_PATH_LEN fp).1 := rfl
  rcases hm : m.strAt fp with _ | s
  · refine ⟨0, by norm_num, ?_⟩
    rw [hfe, probe_read_user_str_fault m e.filename 0 TRIPWIRE_PATH_LEN fp hm]
    show writeRange e.filename 0 (List.replicate TRIPWIRE_PATH_LEN 0) 0 = 0
    rw [writeRange_getD _ _ _ _ (Nat.le_refl 0)
      (by simp [TRIPWIRE_PATH_LEN])]
    simp
  · have hsz : ¬ TRIPWIRE_PATH_LEN = 0 := by norm_num [TRIPWIRE_PATH_LEN]
    have hval : (probe_read_user_str m e.filename 0 TRIPWIRE_PATH_LEN fp).1
        = writeRange e.filename 0
            (s.take (min s.length (TRIPWIRE_PATH_LEN - 1)) ++ [0]) := by
      simp [probe_read_user_str, hm, hsz]
    have hmr : min s.length (TRIPWIRE_PATH_LEN - 1) ≤ TRIPWIRE_PATH_LEN - 1 :=
      min_le_right _ _
    have hml : min s.length (TRIPWIRE_PATH_LEN - 1) ≤ s.length := min_le_left _ _
    have hlen : (s.take (min s.length (TRIPWIRE_PATH_LEN - 1))).length
        = min s.length (TRIPWIRE_PATH_LEN - 1) := by
      rw [List.length_take]; omega
    refine ⟨min s.length (TRIPWIRE_PATH_LEN - 1), by
      simp only [TRIPWIRE_PATH_LEN] at hmr ⊢
      omega, ?_⟩
    rw [hfe, hval]
    rw [writeRange_getD _ _ _ _ (Nat.zero_le _)
      (by simp only [List.length_append, List.length_singleton, hlen]; omega)]
    rw [List.getD_append_right _ _ _ _ (by rw [hlen]; omega)]
    simp [hlen]

/-- C5: the argv reader with output length 256 always leaves a NUL inside
the buffer (at the final cursor position), and when the very first argv
pointer reads as null (a null argv array pointer faults the slot read,
which also yields 0) the output's first byte is 0. -/
theorem fill_argv_nul_in_bounds (m : UserMem) (buf : Nat → Nat) (p : Nat) :
    (∃ j, j < 256 ∧ fill_argv m buf 256 p j = 0) ∧
      ((m.ptrAt p).getD 0 = 0 → fill_argv m buf 256 p 0 = 0) := by
  constructor
  · have hb := fill_argvAux_fst_le m p 256 MAX_ARGS 0 0 buf (by norm_num)
    refine ⟨(fill_argvAux m p 256 MAX_ARGS 0 0 buf).1, by omega, ?_⟩
    show (if (fill_argvAux m p 256 MAX_ARGS 0 0 buf).1 < 256 then
        writeRange (fill_argvAux m p 256 MAX_ARGS 0 0 buf).2
          (fill_argvAux m p 256 MAX_ARGS 0 0 buf).1 [0]
      else (fill_argvAux m p 256 MAX_ARGS 0 0 buf).2)
      (fill_argvAux m p 256 MAX_ARGS 0 0 buf).1 = 0
    rw [if_pos (by omega)]
    rw [writeRange_getD _ _ _ _ (Nat.le_refl _) (by simp)]
    simp
  · intro h0
    have haux : fill_argvAux m p 256 MAX_ARGS 0 0 buf = (0, buf) := by
      rw [show MAX_ARGS = 15 + 1 from rfl, fill_argvAux_succ]
      rw [if_pos (by norm_num)]
      rw [show p + 8 * 0 = p from by norm_num]
      rw [if_pos h0]
    have hargv : fill_argv m buf 256 p = writeRange buf 0 [0] := by
      show (if (fill_argvAux m p 256 MAX_ARGS 0 0 buf).1 < 256 then
          writeRange (fill_argvAux m p 256 MAX_ARGS 0 0 buf).2
            (fill_argvAux m p 256 MAX_ARGS 0 0 buf).1 [0]
        else (fill_argvAux m p 256 MAX_ARGS 0 0 buf).2) = writeRange buf 0 [0]
      rw [haux]
      norm_num
    rw [hargv, writeRange_getD _ _ _ _ (Nat.le_refl 0) (by simp)]
    rfl

/-- Concrete user memory in which every pointer read faults (so the
fault-safe pointer read yields 0). -/
def memNull : UserMem := { ptrAt := fun _ => none, strAt := fun _ => none }

/-- C5 witness: concrete instance with a faulting argv pointer — the
output starts with a NUL and a NUL exists within the 256 bytes. -/
theorem fill_argv_nul_in_bounds_w :
    fill_argv memNull (fun _ => 55) 256 0 0 = 0 :=
  (fill_argv_nul_in_bounds memNull (fun _ => 55) 0).2 rfl

/-- C7: a failed ring reservation makes either handler return 0 without
submitting anything; a successful reservation always leads to fill and
submit of a record, again with return value 0. -/
theorem handlers_reserve_gate (m : UserMem) (t : TaskCtx) (ctx : SysEnterCtx) :
    (trace_execve m t none ctx = (0, none) ∧
      trace_execveat m t none ctx = (0, none)) ∧
    (∀ e : ExecEvent, ∃ r, trace_execve m t (some e) ctx = (0, some r)) ∧
    (∀ e : ExecEvent, ∃ r, trace_execveat m t (some e) ctx = (0, some r)) :=
  ⟨⟨rfl, rfl⟩, fun e => ⟨fill_event m t e (ctx.args 0) (ctx.args 1), rfl⟩,
    fun e => ⟨fill_event m t e (ctx.args 1) (ctx.args 2), rfl⟩⟩

/-- C8: the execve handler hands tracepoint argument 0 to the filler as
path and argument 1 as argv; the execveat handler hands argument 1 as path
and argument 2 as argv, and the filename captured for the at-variant is
read straight from that user-supplied pathname pointer. -/
theorem handlers_arg_indices (m : UserMem) (t : TaskCtx) (ctx : SysEnterCtx)
    (e : ExecEvent) :
    (trace_execve m t (some e) ctx).2
        = some (fill_event m t e (ctx.args 0) (ctx.args 1)) ∧
    (trace_execveat m t (some e) ctx).2
        = some (fill_event m t e (ctx.args 1) (ctx.args 2)) ∧
    (fill_event m t e (ctx.args 1) (ctx.args 2)).filename
        = (probe_read_user_str m e.filename 0 TRIPWIRE_PATH_LEN (ctx.args 1)).1 :=
  ⟨rfl, rfl, rfl⟩

/-- C9: the record layout is exactly 544 bytes with no padding: pid at
offset 0, ppid at 4, uid at 8, gid at 12 (little-endian u32s), comm at
16..31, filename at 32..287 and argv at 288..543. -/
theorem exec_event_layout (e : ExecEvent) :
    (exec_event_bytes e).length = 544 ∧
    (exec_event_bytes e).take 4 = u32le e.pid ∧
    ((exec_event_bytes e).drop 4).take 4 = u32le e.ppid ∧
    ((exec_event_bytes e).drop 8).take 4 = u32le e.uid ∧
    ((exec_event_bytes e).drop 12).take 4 = u32le e.gid ∧
    ((exec_event_bytes e).drop 16).take 16 = (List.range 16).map e.comm ∧
    ((exec_event_bytes e).drop 32).take 256 = (List.range 256).map e.filename ∧
    (exec_event_bytes e).drop 288 = (List.range 256).map e.argv :=
  ⟨rfl, rfl, rfl, rfl, rfl, rfl, rfl, rfl⟩

/-- Bytes contributed by the tail of a space-join: each argument preceded
by one ASCII space (byte 32). -/
def joinTail (ss : List (List Nat)) : List Nat := (ss.map fun s => 32 :: s).flatten

/-- Space-joined argument list, modelled from the spec's words: the
arguments "joined by single ASCII spaces". -/
def joinSpace : List (List Nat) → List Nat
  | [] => []
  | s :: rest => s ++ joinTail rest

/-- Byte length of the tail of a space-join: one space plus the content
per argument. -/
def joinLen (ss : List (List Nat)) : Nat := (ss.map fun s => s.length + 1).sum

theorem joinTail_length (ss : List (List Nat)) :
    (joinTail ss).length = joinLen ss := by
  induction ss with
  | nil => rfl
  | cons s rest ih =>
    show ((32 :: s) ++ joinTail rest).length = (s.length + 1) + joinLen rest
    rw [List.length_append, ih]
    simp

theorem fill_argvAux_join (m : UserMem) (p len : Nat) (ptrs : Nat → Nat) :
    ∀ (ss : List (List Nat)) (i pos : Nat) (buf : Nat → Nat),
      ss ≠ [] → 1 ≤ i →
      (∀ j, j < ss.length →
        m.ptrAt (p + 8 * (i + j)) = some (ptrs (i + j)) ∧ ptrs (i + j) ≠ 0 ∧
          m.strAt (ptrs (i + j)) = some (ss.getD j [])) →
      pos + joinLen ss + 2 ≤ len →
      fill_argvAux m p len ss.length i pos buf
        = (pos + joinLen ss, writeRange buf pos (joinTail ss ++ [0])) := by
  intro ss
  induction ss with
  | nil => intro i pos buf hne; exact absurd rfl hne
  | cons s rest ih =>
    intro i pos buf _ hi hptr hfit
    have hJ : joinLen (s :: rest) = s.length + 1 + joinLen rest := rfl
    rw [hJ] at hfit
    obtain ⟨hp0, hp0ne, hs0⟩ := hptr 0 (by simp)
    rw [Nat.add_zero] at hp0 hp0ne hs0
    have hs0' : m.strAt (ptrs i) = some s := hs0
    have harg : (m.ptrAt (p + 8 * i)).getD 0 = ptrs i := by rw [hp0]; rfl
    show fill_argvAux m p len (rest.length + 1) i pos buf = _
    rw [fill_argvAux_succ, harg]
    rw [if_pos (show pos + 1 < len by omega)]
    rw [if_neg hp0ne]
    rw [if_pos (show 0 < i ∧ pos + 1 < len from ⟨hi, by omega⟩)]
    rw [if_neg (show ¬ len - (pos + 1) - 1 = 0 by omega)]
    rw [probe_read_user_str_fits m (writeRange buf pos [32]) (pos + 1)
      (len - (pos + 1) - 1) (ptrs i) s hs0' (by omega)]
    dsimp only
    have hadv : argvAdvance (pos + 1) ((s.length : Int) + 1) = pos + 1 + s.length := by
      unfold argvAdvance
      rw [if_pos (by omega : (0 : Int) < (s.length : Int) + 1)]
      omega
    rw [hadv]
    have hcomp : writeRange (writeRange buf pos [32]) (pos + 1) (s ++ [0])
        = writeRange buf pos ((32 :: s) ++ [0]) := writeRange_append buf pos [32] (s ++ [0])
    rw [hcomp]
    cases rest with
    | nil =>
      show (pos + 1 + s.length, writeRange buf pos ((32 :: s) ++ [0])) = _
      simp only [Prod.mk.injEq]
      constructor
      · simp [joinLen]
        omega
      · simp [joinTail]
    | cons r rs =>
      have hptr' : ∀ j, j < (r :: rs).length →
          m.ptrAt (p + 8 * ((i + 1) + j)) = some (ptrs ((i + 1) + j)) ∧
            ptrs ((i + 1) + j) ≠ 0 ∧
            m.strAt (ptrs ((i + 1) + j)) = some ((r :: rs).getD j []) := by
        intro j hj
        have hj' : j + 1 < (s :: r :: rs).length := by simp at hj ⊢; omega
        obtain ⟨h1, h2, h3⟩ := hptr (j + 1) hj'
        have he : i + (j + 1) = i + 1 + j := by omega
        rw [he] at h1 h2 h3
        exact ⟨h1, h2, h3⟩
      rw [ih (i + 1) (pos + 1 + s.length) (writeRange buf pos ((32 :: s) ++ [0]))
        (by simp) (by omega) hptr' (by omega)]
      have hlen32 : pos + 1 + s.length = pos + (32 :: s).length := by
        simp [List.length_cons]
        omega
      rw [hlen32]
      rw [writeRange_overwrite buf pos (32 :: s) (joinTail (r :: rs) ++ [0]) 0 (by simp)]
      simp only [Prod.mk.injEq]
      constructor
      · simp [joinLen, List.length_cons]
        omega
      · have hjt : joinTail (s :: r :: rs) = (32 :: s) ++ joinTail (r :: rs) := rfl
        rw [hjt, List.append_assoc]

/-- C6: with at least 17 arguments present (17 non-null pointers), the
bounded loop consumes its 16 iterations and the output is exactly the
first 16 arguments joined by single spaces and NUL-terminated, provided
the joined text fits the buffer (length ≤ 254); the 17th argument's string
is never read (no hypothesis about it is needed). -/
theorem fill_argv_first16 (m : UserMem) (p : Nat) (buf : Nat → Nat)
    (ptrs : Nat → Nat) (ss : List (List Nat))
    (hlen : ss.length = 16)
    (hptr : ∀ j, j ≤ 16 → m.ptrAt (p + 8 * j) = some (ptrs j) ∧ ptrs j ≠ 0)
    (hstr : ∀ j, j < 16 → m.strAt (ptrs j) = some (ss.getD j []))
    (hfit : (joinSpace ss).length + 2 ≤ 256) :
    fill_argv m buf 256 p = writeRange buf 0 (joinSpace ss ++ [0]) := by
  cases ss with
  | nil => simp at hlen
  | cons s rest =>
    have hrl : rest.length = 15 := by simpa using hlen
    have hne : rest ≠ [] := by
      intro h
      rw [h] at hrl
      simp at hrl
    have hJs : (joinSpace (s :: rest)).length = s.length + joinLen rest := by
      show (s ++ joinTail rest).length = _
      rw [List.length_append, joinTail_length]
    rw [hJs] at hfit
    obtain ⟨hp0, hp0ne⟩ := hptr 0 (by omega)
    have hs0 : m.strAt (ptrs 0) = some s := hstr 0 (by omega)
    have harg : (m.ptrAt (p + 8 * 0)).getD 0 = ptrs 0 := by rw [hp0]; rfl
    have hptrR : ∀ j, j < rest.length →
        m.ptrAt (p + 8 * (1 + j)) = some (ptrs (1 + j)) ∧ ptrs (1 + j) ≠ 0 ∧
          m.strAt (ptrs (1 + j)) = some (rest.getD j []) := by
      intro j hj
      have he : j + 1 = 1 + j := by omega
      obtain ⟨h1, h2⟩ := hptr (j + 1) (by omega)
      have h3 : m.strAt (ptrs (j + 1)) = some ((s :: rest).getD (j + 1) []) :=
        hstr (j + 1) (by omega)
      rw [List.getD_cons_succ] at h3
      rw [he] at h1 h2 h3
      exact ⟨h1, h2, h3⟩
    have haux :
        fill_argvAux m p 256 MAX_ARGS 0 0 buf
          = (s.length + joinLen rest,
             writeRange buf 0 (joinSpace (s :: rest) ++ [0])) := by
      rw [show MAX_ARGS = 15 + 1 from rfl, fill_argvAux_succ, harg]
      rw [if_pos (show 0 + 1 < 256 by omega)]
      rw [if_neg hp0ne]
      rw [if_neg (show ¬ (0 < 0 ∧ 0 + 1 < 256) by simp)]
      rw [if_neg (show ¬ (256 - 0 - 1 = 0) by omega)]
      rw [probe_read_user_str_fits m buf 0 (256 - 0 - 1) (ptrs 0) s hs0 (by omega)]
      dsimp only
      have hadv : argvAdvance 0 ((s.length : Int) + 1) = s.length := by
        unfold argvAdvance
        rw [if_pos (by omega : (0 : Int) < (s.length : Int) + 1)]
        omega
      rw [hadv]
      rw [show (15 : Nat) = rest.length from hrl.symm]
      rw [fill_argvAux_join m p 256 ptrs rest 1 s.length (writeRange buf 0 (s ++ [0]))
        hne (by omega) hptrR (by omega)]
      have hov : writeRange (writeRange buf 0 (s ++ [0])) s.length (joinTail rest ++ [0])
          = writeRange buf 0 (s ++ (joinTail rest ++ [0])) := by
        have h := writeRange_overwrite buf 0 s (joinTail rest ++ [0]) 0 (by simp)
        simpa using h
      rw [hov]
      simp only [Prod.mk.injEq]
      constructor
      · trivial
      · show writeRange buf 0 (s ++ (joinTail rest ++ [0]))
            = writeRange buf 0 ((s ++ joinTail rest) ++ [0])
        rw [List.append_assoc]
    show (if (fill_argvAux m p 256 MAX_ARGS 0 0 buf).1 < 256 then
        writeRange (fill_argvAux m p 256 MAX_ARGS 0 0 buf).2
          (fill_argvAux m p 256 MAX_ARGS 0 0 buf).1 [0]
      else (fill_argvAux m p 256 MAX_ARGS 0 0 buf).2)
        = writeRange buf 0 (joinSpace (s :: rest) ++ [0])
    rw [haux]
    dsimp only
    rw [if_pos (show s.length + joinLen rest < 256 by omega)]
    rw [show s.length + joinLen rest = 0 + (joinSpace (s :: rest)).length from by
      rw [hJs]; omega]
    rw [writeRange_overwrite buf 0 (joinSpace (s :: rest)) [0] 0 (by simp)]

/-- Concrete user memory holding 17 one-byte arguments "a": pointer slots
at addresses 1000 + 8j for j = 0..16, strings at 2000 + 100j. -/
def mem17 : UserMem :=
  { ptrAt := fun a =>
      if 1000 ≤ a ∧ a ≤ 1128 ∧ (a - 1000) % 8 = 0
      then some (2000 + 100 * ((a - 1000) / 8)) else some 0
    strAt := fun a =>
      if 2000 ≤ a ∧ a ≤ 3600 ∧ (a - 2000) % 100 = 0 then some [97] else none }

/-- C6 witness: a concrete 17-argument memory yields exactly the first 16
arguments space-joined and NUL-terminated. -/
theorem fill_argv_first16_w :
    fill_argv mem17 (fun _ => 55) 256 1000
      = writeRange (fun _ => 55) 0 (joinSpace (List.replicate 16 [97]) ++ [0]) :=
  fill_argv_first16 mem17 1000 (fun _ => 55) (fun j => 2000 + 100 * j)
    (List.replicate 16 [97]) (by decide) (by decide) (by decide) (by decide)

/-- Concrete user memory for argv = ["a", "", "b"] (an empty string in the
middle). -/
def memEmptyArg : UserMem :=
  { ptrAt := fun a =>
      if a = 1000 then some 2000 else if a = 1008 then some 3000 else
      if a = 1016 then some 4000 else some 0
    strAt := fun a =>
      if a = 2000 then some [97] else if a = 3000 then some [] else
      if a = 4000 then some [98] else none }

/-- C10: a non-null pointer to an empty user string at position i > 0
writes the separator space and advances past zero content bytes, then
iteration continues with argument i + 1; consequently argv = ["a", "", "b"]
yields "a  b" with consecutive spaces rather than single-space joining of
the non-empty arguments. -/
theorem fill_argv_empty_arg :
    (∀ (m : UserMem) (p len fuel i pos : Nat) (buf : Nat → Nat) (a : Nat),
        0 < i → pos + 3 ≤ len →
        m.ptrAt (p + 8 * i) = some a → a ≠ 0 → m.strAt a = some [] →
        fill_argvAux m p len (fuel + 1) i pos buf
          = fill_argvAux m p len fuel (i + 1) (pos + 1)
              (writeRange buf pos [32, 0])) ∧
    (fill_argv memEmptyArg (fun _ => 55) 256 1000 0 = 97 ∧
     fill_argv memEmptyArg (fun _ => 55) 256 1000 1 = 32 ∧
     fill_argv memEmptyArg (fun _ => 55) 256 1000 2 = 32 ∧
     fill_argv memEmptyArg (fun _ => 55) 256 1000 3 = 98 ∧
     fill_argv memEmptyArg (fun _ => 55) 256 1000 4 = 0) := by
  constructor
  · intro m p len fuel i pos buf a hi hpos hptr ha hstr
    have harg : (m.ptrAt (p + 8 * i)).getD 0 = a := by rw [hptr]; rfl
    rw [fill_argvAux_succ, harg]
    rw [if_pos (show pos + 1 < len by omega)]
    rw [if_neg ha]
    rw [if_pos (show 0 < i ∧ pos + 1 < len from ⟨hi, by omega⟩)]
    rw [if_neg (show ¬ len - (pos + 1) - 1 = 0 by omega)]
    rw [probe_read_user_str_fits m (writeRange buf pos [32]) (pos + 1)
      (len - (pos + 1) - 1) a [] hstr (by simp; omega)]
    dsimp only
    have hadv : argvAdvance (pos + 1) ((List.length ([] : List Nat) : Int) + 1)
        = pos + 1 := by
      unfold argvAdvance
      rw [if_pos (by simp : (0 : Int) < (List.length ([] : List Nat) : Int) + 1)]
      simp
    rw [hadv]
    have hbuf : writeRange (writeRange buf pos [32]) (pos + 1)
        (([] : List Nat) ++ [0]) = writeRange buf pos [32, 0] := by
      have h := writeRange_append buf pos [32] [0]
      simpa using h
    rw [hbuf]
  · exact ⟨by decide, by decide, by decide, by decide, by decide⟩

/-- C10 witness: concrete instance of the empty-argument step for
argv = ["a", "", "b"] at i = 1, pos = 1 (right after "a" was written). -/
theorem fill_argv_empty_arg_w :
    fill_argvAux memEmptyArg 1000 256 3 1 1 (writeRange (fun _ => 55) 0 [97, 0])
      = fill_argvAux memEmptyArg 1000 256 2 2 2
          (writeRange (writeRange (fun _ => 55) 0 [97, 0]) 1 [32, 0]) :=
  fill_argv_empty_arg.1 memEmptyArg 1000 256 2 1 1
    (writeRange (fun _ => 55) 0 [97, 0]) 3000 (by decide) (by decide) rfl
    (by decide) rfl

/-- Concrete user memory for argv = ["x", <unreadable>, "b"]: the string
read through pointer 1 faults while pointer 2 is valid and readable. -/
def memFaultArg : UserMem :=
  { ptrAt := fun a =>
      if a = 1000 then some 2000 else if a = 1008 then some 3000 else
      if a = 1016 then some 4000 else some 0
    strAt := fun a =>
      if a = 2000 then some [120] else if a = 4000 then some [98] else none }

/-- C3 counterexample: with the string read for argument 1 faulting and
pointer 2 valid, the reader does not stop at argument 1: the output is
"x  b" — byte 3 is 98 ('b'), a byte appended from a later argument pointer
after the failure.  Had iteration stopped at the failure, bytes 2 onward
would be the zeroes left by the fault handling. -/
theorem fill_argv_fault_continues_cex :
    fill_argv memFaultArg (fun _ => 55) 256 1000 1 = 32 ∧
    fill_argv memFaultArg (fun _ => 55) 256 1000 2 = 32 ∧
    fill_argv memFaultArg (fun _ => 55) 256 1000 3 = 98 ∧
    fill_argv memFaultArg (fun _ => 55) 256 1000 4 = 0 :=
  ⟨by decide, by decide, by decide, by decide⟩

/-- C3 amended: when the fault-safe string read for the i-th non-null
argument pointer (i > 0) fails, that argument contributes no content bytes
— the remaining window is zeroed and the cursor stays just past the
separator — but iteration continues with argument i + 1 instead of
stopping. -/
theorem fill_argv_fault_skips (m : UserMem) (p len fuel i pos : Nat)
    (buf : Nat → Nat) (a : Nat)
    (hi : 0 < i) (hpos : pos + 3 ≤ len)
    (hptr : m.ptrAt (p + 8 * i) = some a) (ha : a ≠ 0)
    (hfault : m.strAt a = none) :
    fill_argvAux m p len (fuel + 1) i pos buf
      = fill_argvAux m p len fuel (i + 1) (pos + 1)
          (writeRange (writeRange buf pos [32]) (pos + 1)
            (List.replicate (len - (pos + 1) - 1) 0)) := by
  have harg : (m.ptrAt (p + 8 * i)).getD 0 = a := by rw [hptr]; rfl
  rw [fill_argvAux_succ, harg]
  rw [if_pos (show pos + 1 < len by omega)]
  rw [if_neg ha]
  rw [if_pos (show 0 < i ∧ pos + 1 < len from ⟨hi, by omega⟩)]
  rw [if_neg (show ¬ len - (pos + 1) - 1 = 0 by omega)]
  rw [probe_read_user_str_fault m (writeRange buf pos [32]) (pos + 1)
    (len - (pos + 1) - 1) a hfault]
  dsimp only
  have hadv : argvAdvance (pos + 1) (-14) = pos + 1 := by
    unfold argvAdvance
    rw [if_neg (by omega : ¬ (0 : Int) < -14)]
  rw [hadv]

/-- C3 amended witness: concrete instance of the fault step for
argv = ["x", <unreadable>, "b"] at i = 1, pos = 1. -/
theorem fill_argv_fault_skips_w :
    fill_argvAux memFaultArg 1000 256 15 1 1 (writeRange (fun _ => 55) 0 [120, 0])
      = fill_argvAux memFaultArg 1000 256 14 2 2
          (writeRange (writeRange (writeRange (fun _ => 55) 0 [120, 0]) 1 [32]) 2
            (List.replicate 253 0)) :=
  fill_argv_fault_skips memFaultArg 1000 256 14 1 1
    (writeRange (fun _ => 55) 0 [120, 0]) 3000 (by decide) (by decide) rfl
    (by decide) rfl

/-- Concrete user memory with a single 300-byte argv entry (300 × 'a'). -/
def memLongArg : UserMem :=
  { ptrAt := fun a => if a = 1000 then some 2000 else some 0
    strAt := fun a => if a = 2000 then some (List.replicate 300 97) else none }

/-- C4 counterexample: for a single 300-byte entry, byte 254 of the output
is the NUL terminator (byte 253 is the last content byte and byte 255 keeps
its prior value), so the output is NOT the first 255 entry bytes followed
by NUL. -/
theorem fill_argv_300_cex :
    fill_argv memLongArg (fun _ => 55) 256 1000 253 = 97 ∧
    fill_argv memLongArg (fun _ => 55) 256 1000 254 = 0 ∧
    fill_argv memLongArg (fun _ => 55) 256 1000 255 = 55 ∧
    ¬ (fill_argv memLongArg (fun _ => 55) 256 1000 254 = 97 ∧
       fill_argv memLongArg (fun _ => 55) 256 1000 255 = 0) :=
  ⟨by decide, by decide, by decide, by decide⟩

/-- C4 amended: a single argv entry of 300 bytes yields the first 254
bytes of the entry followed by a NUL at index 254 — the loop reserves one
byte for its final NUL and the bounded string read one more for its own. -/
theorem fill_argv_300_amended :
    (List.range 254).map (fill_argv memLongArg (fun _ => 55) 256 1000)
        = List.replicate 254 97 ∧
    fill_argv memLongArg (fun _ => 55) 256 1000 254 = 0 :=
  ⟨by decide, by decide⟩

/-- Concrete task context for the stale-byte evaluation. -/
def taskDemo : TaskCtx :=
  { pid_tgid := 1234 * 2 ^ 32 + 1234
    uid_gid := 1000 * 2 ^ 32 + 1000
    comm := [98, 97, 115, 104]
    real_parent_tgid := 1 }

/-- Reserved ring slot whose bytes are stale (all 170 = 0xAA):
`bpf_ringbuf_reserve` hands out reused slot memory without zeroing it. -/
def staleSlot : ExecEvent :=
  { pid := 0, ppid := 0, uid := 0, gid := 0
    comm := fun _ => 170, filename := fun _ => 170, argv := fun _ => 170 }

/-- Concrete user memory for the stale-byte evaluation: the filename
pointer reads the 1-byte string "a"; every argv pointer slot reads null. -/
def memStale : UserMem :=
  { ptrAt := fun _ => some 0
    strAt := fun a => if a = 2000 then some [97] else none }

/-- C2: after a successful 2-byte filename copy ("a" plus NUL) the filler
leaves byte 100 of the filename field — and byte 100 of the argv field —
at its stale pre-reservation value 170: bytes past the copied strings are
neither overwritten nor zero-padded before submit, contradicting the
mandate that every byte of every field be overwritten or zeroed. -/
theorem fill_event_stale_bytes :
    (fill_event memStale taskDemo staleSlot 2000 5000).filename 0 = 97 ∧
    (fill_event memStale taskDemo staleSlot 2000 5000).filename 1 = 0 ∧
    (fill_event memStale taskDemo staleSlot 2000 5000).filename 100 = 170 ∧
    (fill_event memStale taskDemo staleSlot 2000 5000).argv 0 = 0 ∧
    (fill_event memStale taskDemo staleSlot 2000 5000).argv 100 = 170 :=
  ⟨by decide, by decide, by decide, by decide, by decide⟩
